import Mathlib

/-!
Verification of the cctap protocol utility module (certificate-chain
verification, response recovery, session-key derivation, nonce
generation, BIP-32 path codec).  Byte buffers are lists of naturals,
JS strings are lists of characters, and the crypto / text-encoding
collaborators from `./compat` and `bech32` are abstract function
parameters bundled in a `Compat` structure.  Fallible code returns
`Except CkError`.
-/

namespace CCTap

/-- Byte strings (JS `Buffer`): lists of naturals, one entry per byte. -/
abbrev Bytes := List Nat

/-- The distinct failure modes (thrown `Error`s) of the module, one
constructor per throw site relevant to the claims. -/
inductive CkError where
  | lengthMismatchXor
  | missingCerts
  | invalidMessageLength
  | invalidSlotPubkeyLength
  | badSigVerifyCerts
  | counterfeitDevice
  | notATapsigner
  | badSigRecoverPubkey
  | tapsignerNotSupported
  | badSigRecoverAddress
  | corruptResponse
  | invalidDigestLength
  | invalidSigLength
  | jsTypeError
  | sigNotRecovered
  | invalidCvcLength
  | malformedPathComponent
  | hardenedOutOfRange
  | nonHardenedOutOfRange
  | expectingCompressedPubkey
  | cryptoFailure
  deriving DecidableEq

/-- Modelled from the spec: `CARD_NONCE_SIZE` comes from the missing
`constants` module; the spec fixes the card nonce at 16 bytes (§8). -/
def CARD_NONCE_SIZE : Nat := 16

/-- Modelled from the spec: `USER_NONCE_SIZE` comes from the missing
`constants` module; the spec fixes the host nonce at 16 bytes (§8). -/
def USER_NONCE_SIZE : Nat := 16

/-- Modelled from the spec: `ADDR_TRIM`, the fixed trim-length policy
constant of the address anti-counterfeiting check (§4.5), from the
missing `constants` module.  The claims only use it as an abstract
length, never its value. -/
def ADDR_TRIM : Nat := 12

/-- Modelled from the spec: the trusted 33-byte factory root key (the
`FACTORY_ROOT_KEYS` entry of the missing `constants` module).  The
claims only use byte-for-byte equality with it, never its value. -/
def factoryRootKey : Bytes := 3 :: List.replicate 32 7

/-- Modelled from the spec: "a small fixed set of trusted factory root
keys" (§3); the source only ever compares against `FACTORY_ROOT_KEYS[0]`. -/
def FACTORY_ROOT_KEYS : List Bytes := [factoryRootKey]

/-- ASCII bytes of the domain-separation constant `'OPENDIME'`. -/
def OPENDIME : Bytes := [79, 80, 69, 78, 68, 73, 77, 69]

/-- The crypto-primitive and text-encoding collaborators the module
imports from `./compat` and `bech32` (out of scope per the spec §6),
as abstract functions.  `CT_sig_to_pubkey` may throw, so it returns
`Except`; its errors propagate where the source has no `catch`. -/
structure Compat where
  sha256s : Bytes → Bytes
  CT_sig_verify : Bytes → Bytes → Bytes → Bool
  CT_sig_to_pubkey : Bytes → Bytes → Except CkError Bytes
  CT_priv_to_pubkey : Bytes → Bytes
  CT_ecdh : Bytes → Bytes → Bytes
  hash160 : Bytes → Bytes
  base32Encode : Bytes → List Char
  toWords : Bytes → List Nat
  bech32Encode : List Char → List Nat → List Char

/-- `xor_bytes` from the source: throws on length mismatch, otherwise
byte-wise XOR.  (The `Buffer.isBuffer` type check cannot fail in the
typed embedding.) -/
def xor_bytes (a b : Bytes) : Except CkError Bytes :=
  if a.length ≠ b.length then .error .lengthMismatchXor
  else .ok (List.zipWith (· ^^^ ·) a b)

/-! ## Nonce generation -/

/-- JS loose inequality `!=` restricted to `number | undefined` operands,
with `none` standing for `undefined`: `undefined != undefined` is
`false`, and a number is never loosely equal to `undefined`. -/
def jsLooseNe (a b : Option Nat) : Bool :=
  match a, b with
  | some x, some y => x != y
  | none, none => false
  | _, _ => true

/-- The retry loop of `pick_nonce`.  `rng i` is the `randomBytes` result
of attempt `i` (randomness made explicit).  `rv[0]` on a `Buffer` is the
first byte (or `undefined` when empty) and `rv[-1]` is always
`undefined` (JS buffers have no negative indexing); `new Set(rv).size`
is the number of distinct byte values.  Falling off the loop returns
`undefined` (`none`). -/
def pickNonceGo (rng : Nat → Bytes) : List Nat → Option Bytes
  | [] => none
  | i :: rest =>
    let rv := rng i
    if jsLooseNe rv.head? none || decide (2 ≤ rv.dedup.length) then some rv
    else pickNonceGo rng rest

/-- `pick_nonce` from the source: up to `num_of_retry = 3` attempts. -/
def pick_nonce (rng : Nat → Bytes) : Option Bytes :=
  pickNonceGo rng [0, 1, 2]

/-! ## BIP-32 path codec -/

/-- `HARDENED = 0x80000000`. -/
def HARDENED : Nat := 2 ^ 31

/-- JS numbers as produced by `Number.parseInt`: an integer, or `none`
for `NaN`. -/
abbrev JsNum := Option Int

/-- JS `<=` between a number and a `number` value: any comparison with
`NaN` is `false`. -/
def jsLeNum (a : Int) (b : JsNum) : Bool :=
  match b with
  | none => false
  | some x => a ≤ x

/-- `path_component_in_range` from the source.  The JS expression
`0 <= num < HARDENED` parses as `(0 <= num) < HARDENED`: the boolean
coerces to `0` or `1`, so the comparison against `2^31` always holds
and the function returns `true` for every input. -/
def path_component_in_range (num : JsNum) : Bool :=
  let b : Int := if jsLeNum 0 num then 1 else 0
  decide (b < ((HARDENED : Nat) : Int))

/-- Decimal digit value of a character, `none` when not `0`–`9`. -/
def digitVal (ch : Char) : Option Nat :=
  if 48 ≤ ch.toNat ∧ ch.toNat ≤ 57 then some (ch.toNat - 48) else none

/-- Hexadecimal digit value of a character. -/
def hexDigitVal (ch : Char) : Option Nat :=
  if 48 ≤ ch.toNat ∧ ch.toNat ≤ 57 then some (ch.toNat - 48)
  else if 97 ≤ ch.toNat ∧ ch.toNat ≤ 102 then some (ch.toNat - 87)
  else if 65 ≤ ch.toNat ∧ ch.toNat ≤ 70 then some (ch.toNat - 55)
  else none

/-- Accumulating value of the longest leading digit run. -/
def parseDigitsAcc (base : Nat) (dv : Char → Option Nat) (acc : Nat) :
    List Char → Nat
  | [] => acc
  | ch :: rest =>
    match dv ch with
    | some d => parseDigitsAcc base dv (acc * base + d) rest
    | none => acc

/-- JS string whitespace (space, tab, LF, CR). -/
def jsWhitespace (ch : Char) : Bool :=
  ch.toNat == 32 || ch.toNat == 9 || ch.toNat == 10 || ch.toNat == 13

/-- Decimal branch of `Number.parseInt`: `NaN` when no leading digit. -/
def jsParseIntDec (sign : Int) (s : List Char) : JsNum :=
  match s with
  | [] => none
  | ch :: _ =>
    match digitVal ch with
    | none => none
    | some _ => some (sign * (parseDigitsAcc 10 digitVal 0 s : Nat))

/-- Whether a string starts with the `0x`/`0X` marker of a hexadecimal
literal. -/
def hasHexMarker : List Char → Bool
  | c0 :: c1 :: _ => c0.toNat == 48 && (c1 == 'x' || c1 == 'X')
  | _ => false

/-- Hexadecimal branch of `Number.parseInt`, on the text after the
`0x` marker: `NaN` when no leading hex digit. -/
def jsParseIntHexTail (sign : Int) : List Char → JsNum
  | [] => none
  | ch :: rest =>
    match hexDigitVal ch with
    | none => none
    | some _ =>
      some (sign * (parseDigitsAcc 16 hexDigitVal 0 (ch :: rest) : Nat))

/-- After the sign of `Number.parseInt`: a `0x`/`0X` prefix selects the
hexadecimal parse of the remaining text, otherwise the decimal parse. -/
def jsParseIntSigned (sign : Int) (s : List Char) : JsNum :=
  if hasHexMarker s then jsParseIntHexTail sign (s.drop 2)
  else jsParseIntDec sign s

/-- Model of `Number.parseInt` with no radix argument: skip leading
whitespace, read an optional sign, then the longest digit run; `none`
(`NaN`) when no digit follows. -/
def jsParseInt (s : List Char) : JsNum :=
  match s.dropWhile jsWhitespace with
  | [] => none
  | c :: rest =>
    if c == '-' then jsParseIntSigned (-1) rest
    else if c == '+' then jsParseIntSigned 1 rest
    else jsParseIntSigned 1 (c :: rest)

/-- Model of `Number.prototype.toString` on a nonnegative integer: its
decimal digit characters. -/
def natToChars (n : Nat) : List Char :=
  if n = 0 then ['0'] else ((Nat.digits 10 n).map Nat.digitChar).reverse

/-- The 32-bit pattern (`ToUint32`) of a JS number; `ToInt32` has the
same bit pattern.  `NaN` coerces to `0`. -/
def toUint32 (num : JsNum) : Nat :=
  match num with
  | none => 0
  | some x => (x % (2 ^ 32 : Int)).toNat

/-- `(num | HARDENED) >>> 0` from `str2path`: set bit 31 of the 32-bit
pattern of `num`, i.e. keep the low 31 bits and add `2^31`. -/
def orHardened (num : JsNum) : Int :=
  ((toUint32 num % HARDENED + HARDENED : Nat) : Int)

/-- One component of `path2str`:
`(item & ~HARDENED).toString() + (item & HARDENED ? 'h' : '')`.
`item & ~HARDENED` keeps the low 31 bits of the 32-bit pattern, and
`item & HARDENED` is truthy exactly when bit 31 is set. -/
def path2strComponent (item : Int) : List Char :=
  let pat := toUint32 (some item)
  natToChars (pat % HARDENED) ++ (if HARDENED ≤ pat then ['h'] else [])

/-- `Array.prototype.join` with a one-character separator. -/
def joinChar (sep : Char) : List (List Char) → List Char
  | [] => []
  | [x] => x
  | x :: y :: rest => x ++ sep :: joinChar sep (y :: rest)

/-- `path2str` from the source: `['m', ...temp].join('/')`. -/
def path2str (path : List Int) : List Char :=
  joinChar '/' (['m'] :: path.map path2strComponent)

/-- `String.prototype.split` with a one-character separator. -/
def splitOnChar (sep : Char) : List Char → List (List Char)
  | [] => [[]]
  | ch :: rest =>
    match splitOnChar sep rest with
    | [] => [[ch]]
    | y :: ys => if ch = sep then [] :: y :: ys else (ch :: y) :: ys

/-- The hardening marker characters `"'phHP"` (apostrophe, p, h, H, P). -/
def hardeningMarkers : List Char := [Char.ofNat 39, 'p', 'h', 'H', 'P']

/-- `"'phHP".includes(item[item.length - 1])` for a nonempty `item`. -/
def isHardeningMarker (ch : Char) : Bool := decide (ch ∈ hardeningMarkers)

/-- The `for` loop of `str2path`: process the chunks of
`path.split('/')` in order, skipping `'m'` and empty chunks, and append
each parsed component. -/
def str2pathGo : List (List Char) → Except CkError (List JsNum)
  | [] => .ok []
  | item :: rest =>
    if item = ['m'] then str2pathGo rest
    else if item = [] then str2pathGo rest
    else if isHardeningMarker (item.getLastD ' ') then
      if item.length < 2 then .error .malformedPathComponent
      else
        let num := jsParseInt item.dropLast
        if ! path_component_in_range num then .error .hardenedOutOfRange
        else
          match str2pathGo rest with
          | .error e => .error e
          | .ok rv => .ok (some (orHardened num) :: rv)
    else
      let here := jsParseInt item
      if ! path_component_in_range here then .error .nonHardenedOutOfRange
      else
        match str2pathGo rest with
        | .error e => .error e
        | .ok rv => .ok (here :: rv)

/-- `str2path` from the source. -/
def str2path (path : List Char) : Except CkError (List JsNum) :=
  str2pathGo (splitOnChar '/' path)

/-! ## Ident -/

/-- `md.slice(i, j)` for `0 ≤ i ≤ j`. -/
def jsSlice (s : List Char) (i j : Nat) : List Char := (s.drop i).take (j - i)

/-- `card_pubkey_to_ident` from the source, the `for (i = 0; i < 20;
i += 5)` loop unrolled; `v.slice(0, -1)` drops the final dash. -/
def card_pubkey_to_ident (c : Compat) (card_pubkey : Bytes) :
    Except CkError (List Char) :=
  if card_pubkey.length ≠ 33 then .error .expectingCompressedPubkey
  else
    let md := c.base32Encode ((c.sha256s card_pubkey).drop 8)
    let v := (jsSlice md 0 5 ++ ['-']) ++ (jsSlice md 5 10 ++ ['-']) ++
      (jsSlice md 10 15 ++ ['-']) ++ (jsSlice md 15 20 ++ ['-'])
    .ok v.dropLast

/-! ## Certificate chain verification -/

/-- Tail of `verify_certs_ll` once the signing message is assembled:
authentication-signature check, chain walk, root comparison.
`Buffer.compare` is truthy exactly when the buffers differ. -/
def verifyCertsTail (c : Compat) (card_pubkey : Bytes)
    (cert_chain : List Bytes) (signature : Bytes) (msg : Bytes) :
    Except CkError Bytes :=
  if ! c.CT_sig_verify signature (c.sha256s msg) card_pubkey then
    .error .badSigVerifyCerts
  else
    match cert_chain.foldlM
        (fun pk s => c.CT_sig_to_pubkey (c.sha256s pk) s) card_pubkey with
    | .error e => .error e
    | .ok pubkey =>
      if pubkey ≠ FACTORY_ROOT_KEYS.headD [] then .error .counterfeitDevice
      else .ok pubkey

/-- `verify_certs_ll` from the source.  `slot_pubkey` is already a byte
buffer (the source's hex-decoding of a string argument is a
representation detail). -/
def verify_certs_ll (c : Compat) (card_nonce card_pubkey my_nonce : Bytes)
    (cert_chain : List Bytes) (signature : Bytes)
    (slot_pubkey : Option Bytes) : Except CkError Bytes :=
  if cert_chain.length < 2 then .error .missingCerts
  else
    let msg := OPENDIME ++ card_nonce ++ my_nonce
    if msg.length ≠ 8 + CARD_NONCE_SIZE + USER_NONCE_SIZE then
      .error .invalidMessageLength
    else
      match slot_pubkey with
      | some spk =>
        if spk.length ≠ 33 then .error .invalidSlotPubkeyLength
        else verifyCertsTail c card_pubkey cert_chain signature (msg ++ spk)
      | none => verifyCertsTail c card_pubkey cert_chain signature msg

/-- The `status` response fields used by `verify_certs`. -/
structure CertStatusResp where
  ver : List Char
  card_nonce : Bytes
  pubkey : Bytes

/-- The `check` response fields used by `verify_certs`. -/
structure CheckResp where
  auth_sig : Bytes

/-- The `certs` response fields used by `verify_certs`. -/
structure CertsResp where
  cert_chain : List Bytes

/-- The version string `'0.9.0'`. -/
def ver090 : List Char := ['0', '.', '9', '.', '0']

/-- `verify_certs` from the source: v0.9.0 cards never attest to the
slot pubkey, so it is nulled before the low-level call. -/
def verify_certs (c : Compat) (status_resp : CertStatusResp)
    (check_resp : CheckResp) (certs_resp : CertsResp) (my_nonce : Bytes)
    (slot_pubkey : Option Bytes) : Except CkError Bytes :=
  let slot_pubkey := if status_resp.ver = ver090 then none else slot_pubkey
  verify_certs_ll c status_resp.card_nonce status_resp.pubkey my_nonce
    certs_resp.cert_chain check_resp.auth_sig slot_pubkey

/-! ## Response recovery -/

/-- The `status` response fields used by `recover_pubkey`. -/
structure TsStatusResp where
  is_tapsigner : Bool
  card_nonce : Bytes

/-- The `read` response fields. -/
structure ReadResp where
  pubkey : Bytes
  sig : Bytes

/-- `recover_pubkey` from the source: unmask the XOR-encrypted pubkey
(`pubkey.slice(0, 1)` concatenated with `xor_bytes(pubkey.slice(1),
ses_key)`), then verify the signature over the nonce-bound message. -/
def recover_pubkey (c : Compat) (status_resp : TsStatusResp)
    (read_resp : ReadResp) (my_nonce ses_key : Bytes) :
    Except CkError Bytes :=
  if ! status_resp.is_tapsigner then .error .notATapsigner
  else
    let msg := OPENDIME ++ status_resp.card_nonce ++ my_nonce ++ [0]
    if msg.length ≠ 8 + CARD_NONCE_SIZE + USER_NONCE_SIZE + 1 then
      .error .invalidMessageLength
    else
      match xor_bytes (read_resp.pubkey.drop 1) ses_key with
      | .error e => .error e
      | .ok tail =>
        let pubkey := read_resp.pubkey.take 1 ++ tail
        if ! c.CT_sig_verify pubkey (c.sha256s msg) read_resp.sig then
          .error .badSigRecoverPubkey
        else .ok pubkey

/-- The `status` response fields used by `recover_address`. -/
structure ScStatusResp where
  is_tapsigner : Bool
  card_nonce : Bytes
  slots : List Nat
  addr : List Char

/-- The result of `recover_address`. -/
structure AddrResult where
  pubkey : Bytes
  addr : List Char
  deriving DecidableEq

/-- `String.prototype.startsWith`. -/
def jsStartsWith (s p : List Char) : Bool := s.take p.length == p

/-- `String.prototype.endsWith`. -/
def jsEndsWith (s t : List Char) : Bool := s.drop (s.length - t.length) == t

/-- First index of a character (`String.prototype.indexOf`, `none` for
`-1`). -/
def jsIndexOf (c : Char) : List Char → Option Nat
  | [] => none
  | x :: xs => if x = c then some 0 else (jsIndexOf c xs).map (· + 1)

/-- `expect.slice(0, expect.indexOf('_'))`: the text before the first
separator; with no separator, `slice(0, -1)` drops the last character. -/
def sliceToFirstSep (s : List Char) : List Char :=
  match jsIndexOf '_' s with
  | some i => s.take i
  | none => s.take (s.length - 1)

/-- `expect.slice(expect.lastIndexOf('_') + 1)`: the text after the last
separator; with no separator, `slice(0)` is the whole string.
`lastIndexOf` is located through the reversed string. -/
def sliceFromLastSep (s : List Char) : List Char :=
  match jsIndexOf '_' s.reverse with
  | some j => s.drop (s.length - j)
  | none => s

/-- `render_address` from the source (the `testnet` default of `false`
is passed explicitly). -/
def render_address (c : Compat) (pubkey : Bytes) (testnet : Bool) :
    List Char :=
  let pubkey := if pubkey.length = 32 then c.CT_priv_to_pubkey pubkey else pubkey
  let hrp := if testnet then ['t', 'b'] else ['b', 'c']
  c.bech32Encode hrp (0 :: c.toWords (c.hash160 pubkey))

/-- `recover_address` from the source (TypeScript variant): verify the
proof-of-possession signature, then compare the rendered address's
first and last characters against the trim window of the expected
address.  `slots[0]` is truncated to one byte by `Buffer.from`. -/
def recover_address (c : Compat) (status_resp : ScStatusResp)
    (read_resp : ReadResp) (my_nonce : Bytes) : Except CkError AddrResult :=
  if status_resp.is_tapsigner then .error .tapsignerNotSupported
  else
    let sl := status_resp.slots.headD 0 % 256
    let msg := OPENDIME ++ status_resp.card_nonce ++ my_nonce ++ [sl]
    if msg.length ≠ 8 + CARD_NONCE_SIZE + USER_NONCE_SIZE + 1 then
      .error .invalidMessageLength
    else
      let pubkey := read_resp.pubkey
      if ! c.CT_sig_verify read_resp.sig (c.sha256s msg) pubkey then
        .error .badSigRecoverAddress
      else
        let expect := status_resp.addr
        let left := sliceToFirstSep expect
        let right := sliceFromLastSep expect
        let addr := render_address c pubkey false
        if ! (jsStartsWith addr left && jsEndsWith addr right &&
            left.length == right.length && left.length == ADDR_TRIM) then
          .error .corruptResponse
        else .ok ⟨pubkey, addr⟩

/-! ## Recoverable signature reconstruction -/

/-- `expect_pubkey && Buffer.compare(expect_pubkey, pubkey)`: truthy iff
an expected key is supplied and differs byte-for-byte. -/
def expectMismatch (expect_pubkey : Option Bytes) (pubkey : Bytes) : Bool :=
  match expect_pubkey with
  | some ep => ep != pubkey
  | none => false

/-- The `for (rec_id = 0; rec_id < 4; ...)` loop of
`make_recoverable_sig`, over the list of remaining candidates.  When
`CT_sig_to_pubkey` throws: candidates `>= 2` `continue`; candidates `0`
and `1` fall through the `catch` with `pubkey` left `undefined`, so a
supplied constraint then crashes on the `undefined` key
(`Buffer.from(undefined)` or `undefined.length` throws a `TypeError`),
while with no constraints the candidate signature is returned. -/
def mrsGo (c : Compat) (digest sig : Bytes) (addr : Option (List Char))
    (expect_pubkey : Option Bytes) (is_testnet : Bool) :
    List Nat → Except CkError Bytes
  | [] => .error .sigNotRecovered
  | rec_id :: rest =>
    let rec_sig := (39 + rec_id) :: sig
    match c.CT_sig_to_pubkey digest rec_sig with
    | .error _ =>
      if 2 ≤ rec_id then mrsGo c digest sig addr expect_pubkey is_testnet rest
      else
        match expect_pubkey with
        | some _ => .error .jsTypeError
        | none =>
          match addr with
          | some _ => .error .jsTypeError
          | none => .ok rec_sig
    | .ok pubkey =>
      if expectMismatch expect_pubkey pubkey then
        mrsGo c digest sig addr expect_pubkey is_testnet rest
      else
        match addr with
        | some a =>
          if jsEndsWith (render_address c pubkey is_testnet) a then .ok rec_sig
          else mrsGo c digest sig addr expect_pubkey is_testnet rest
        | none => .ok rec_sig

/-- `make_recoverable_sig` from the source. -/
def make_recoverable_sig (c : Compat) (digest sig : Bytes)
    (addr : Option (List Char)) (expect_pubkey : Option Bytes)
    (is_testnet : Bool) : Except CkError Bytes :=
  if digest.length ≠ 32 then .error .invalidDigestLength
  else if sig.length ≠ 64 then .error .invalidSigLength
  else mrsGo c digest sig addr expect_pubkey is_testnet [0, 1, 2, 3]

/-! ## Session key derivation -/

/-- The `ag` field of the `calc_xcvc` result. -/
structure XcvcAuth where
  epubkey : Bytes
  xcvc : Bytes
  deriving DecidableEq

/-- The `calc_xcvc` result: session key plus auth arguments. -/
structure XcvcResult where
  sk : Bytes
  ag : XcvcAuth
  deriving DecidableEq

/-- `calc_xcvc` from the source.  The fresh ephemeral keypair that
`CT_pick_keypair` draws is passed explicitly as `kp = (priv, pub)`
(randomness made explicit); `cvc` is already bytes (`force_bytes`).  -/
def calc_xcvc (c : Compat) (kp : Bytes × Bytes) (cmd : List Char)
    (card_nonce his_pubkey : Bytes) (cvc : Bytes) :
    Except CkError XcvcResult :=
  if cvc.length < 6 || cvc.length > 32 then .error .invalidCvcLength
  else
    let session_key := c.CT_ecdh his_pubkey kp.1
    let message := card_nonce ++ cmd.map Char.toNat
    let md := c.sha256s message
    match xor_bytes session_key md with
    | .error e => .error e
    | .ok x =>
      let mask := x.take cvc.length
      match xor_bytes cvc mask with
      | .error e => .error e
      | .ok xcvc => .ok ⟨session_key, ⟨kp.2, xcvc⟩⟩

/-! ## Concrete collaborator instances used by witnesses -/

/-- A concrete collaborator instance whose chain walk always recovers
the factory root key and whose signature checks succeed. -/
def compatOkRoot : Compat :=
  ⟨fun _ => List.replicate 32 0, fun _ _ _ => true,
    fun _ _ => .ok factoryRootKey, fun k => k, fun _ _ => List.replicate 32 0,
    fun _ => List.replicate 20 0, fun _ => List.replicate 39 'A',
    fun _ => [], fun _ _ => List.replicate 24 'q'⟩

/-- A concrete collaborator instance whose chain walk ends at a key that
is not a factory root key. -/
def compatBadRoot : Compat :=
  ⟨fun _ => List.replicate 32 0, fun _ _ _ => true,
    fun _ _ => .ok (List.replicate 33 0), fun k => k,
    fun _ _ => List.replicate 32 0, fun _ => List.replicate 20 0,
    fun _ => List.replicate 39 'A', fun _ => [],
    fun _ _ => List.replicate 24 'q'⟩

/-- A concrete collaborator instance whose public-key recovery always
throws. -/
def compatRecFail : Compat :=
  ⟨fun _ => List.replicate 32 0, fun _ _ _ => true,
    fun _ _ => .error .cryptoFailure, fun k => k,
    fun _ _ => List.replicate 32 0, fun _ => List.replicate 20 0,
    fun _ => List.replicate 39 'A', fun _ => [],
    fun _ _ => List.replicate 24 'q'⟩

/-! ## Claim C10 -/

/-- Claim C10: for every status response whose version field equals
`'0.9.0'`, `verify_certs` ignores any supplied sealed-slot public key:
the result is identical to calling it with no slot pubkey at all. -/
theorem claim_C10_v090_ignores_slot_pubkey (c : Compat) (cn pk : Bytes)
    (check_resp : CheckResp) (certs_resp : CertsResp) (my_nonce : Bytes)
    (slot_pubkey : Option Bytes) :
    verify_certs c ⟨ver090, cn, pk⟩ check_resp certs_resp my_nonce slot_pubkey =
      verify_certs c ⟨ver090, cn, pk⟩ check_resp certs_resp my_nonce none := by
  simp [verify_certs]

/-! ## Claim C4 -/

/-- Claim C4 is refuted by the code: `pick_nonce` returns an all-zero,
fully degenerate nonce drawn on the very first attempt and never
retries, because the guard `rv[0] != rv[-1]` compares a byte with
`undefined` (JS buffers have no negative indexing) and is therefore
always true.  The second conjunct records that the returned nonce has
fewer than 2 distinct byte values. -/
theorem claim_C4_pick_nonce_returns_degenerate :
    pick_nonce (fun _ => List.replicate USER_NONCE_SIZE 0) =
        some (List.replicate USER_NONCE_SIZE 0) ∧
      (List.replicate USER_NONCE_SIZE 0).dedup.length < 2 := by
  exact ⟨rfl, by decide⟩

/-! ## Claim C7 -/

/-- Claim C7's range half is refuted by the code: the guard
`0 <= num < HARDENED` in `path_component_in_range` parses as
`(0 <= num) < HARDENED`, which is always true, so `str2path` accepts
`'m/2147483648'` (a component equal to `2^31`, outside `[0, 2^31)`)
instead of raising the range error.  The malformed-marker half of the
claim does hold: a bare marker component raises the malformed-path
error. -/
theorem claim_C7_range_check_vacuous :
    str2path ['m', '/', '2', '1', '4', '7', '4', '8', '3', '6', '4', '8'] =
        .ok [some 2147483648] ∧
      str2path ['m', '/', 'h'] = .error .malformedPathComponent ∧
      path_component_in_range (some ((HARDENED : Nat) : Int)) = true := by
  refine ⟨rfl, rfl, rfl⟩

/-! ## Claim C1 -/

/-- Claim C1: a certificate chain with fewer than 2 signatures always
fails with the chain-too-short error (`'Missing certs'`); if the
authentication signature verifies and every chain link is walked but
the final recovered key is not byte-for-byte equal to a trusted factory
root key, the call fails with the counterfeit-device error; and when
the walk ends at a known factory root key the call succeeds and returns
that root key. -/
theorem claim_C1_verify_certs_ll_chain (c : Compat)
    (card_nonce card_pubkey my_nonce signature : Bytes)
    (cert_chain : List Bytes) (finalKey : Bytes) :
    (∀ spk, cert_chain.length < 2 →
      verify_certs_ll c card_nonce card_pubkey my_nonce cert_chain signature
          spk = .error .missingCerts) ∧
    (2 ≤ cert_chain.length → card_nonce.length = CARD_NONCE_SIZE →
      my_nonce.length = USER_NONCE_SIZE →
      c.CT_sig_verify signature (c.sha256s (OPENDIME ++ card_nonce ++ my_nonce))
          card_pubkey = true →
      cert_chain.foldlM (fun pk s => c.CT_sig_to_pubkey (c.sha256s pk) s)
          card_pubkey = .ok finalKey →
      (finalKey ∉ FACTORY_ROOT_KEYS →
        verify_certs_ll c card_nonce card_pubkey my_nonce cert_chain signature
            none = .error .counterfeitDevice) ∧
      (finalKey ∈ FACTORY_ROOT_KEYS →
        verify_certs_ll c card_nonce card_pubkey my_nonce cert_chain signature
            none = .ok finalKey)) := by
  constructor
  · intro spk hshort
    simp [verify_certs_ll, hshort]
  · intro hlen hcn hmn hsig hfold
    simp only [OPENDIME, List.cons_append, List.nil_append, List.append_assoc]
      at hsig
    constructor
    · intro hnotmem
      have hne : finalKey ≠ factoryRootKey := by
        simpa [FACTORY_ROOT_KEYS] using hnotmem
      simp [verify_certs_ll, Nat.not_lt.mpr hlen, verifyCertsTail, hsig,
        hfold, FACTORY_ROOT_KEYS, hne, OPENDIME, CARD_NONCE_SIZE,
        USER_NONCE_SIZE, hcn, hmn]
    · intro hmem
      have heq : finalKey = factoryRootKey := by
        simpa [FACTORY_ROOT_KEYS] using hmem
      simp [verify_certs_ll, Nat.not_lt.mpr hlen, verifyCertsTail, hsig,
        hfold, FACTORY_ROOT_KEYS, heq, OPENDIME, CARD_NONCE_SIZE,
        USER_NONCE_SIZE, hcn, hmn]

/-- Witness for claim C1 at concrete inputs: a 1-link chain is too
short; a 2-link walk ending at a non-root key is counterfeit; a 2-link
walk ending at the factory root key succeeds and returns it. -/
theorem claim_C1_witness :
    verify_certs_ll compatOkRoot (List.replicate 16 0) (List.replicate 33 2)
        (List.replicate 16 1) [List.replicate 64 5] (List.replicate 64 6)
        none = .error .missingCerts ∧
    verify_certs_ll compatBadRoot (List.replicate 16 0) (List.replicate 33 2)
        (List.replicate 16 1) [List.replicate 64 5, List.replicate 64 5]
        (List.replicate 64 6) none = .error .counterfeitDevice ∧
    verify_certs_ll compatOkRoot (List.replicate 16 0) (List.replicate 33 2)
        (List.replicate 16 1) [List.replicate 64 5, List.replicate 64 5]
        (List.replicate 64 6) none = .ok factoryRootKey := by
  refine ⟨?_, ?_, ?_⟩
  · exact (claim_C1_verify_certs_ll_chain compatOkRoot (List.replicate 16 0)
      (List.replicate 33 2) (List.replicate 16 1) (List.replicate 64 6)
      [List.replicate 64 5] []).1 none (by decide)
  · exact ((claim_C1_verify_certs_ll_chain compatBadRoot (List.replicate 16 0)
      (List.replicate 33 2) (List.replicate 16 1) (List.replicate 64 6)
      [List.replicate 64 5, List.replicate 64 5] (List.replicate 33 0)).2
      (by decide) (by decide) (by decide) rfl rfl).1 (by decide)
  · exact ((claim_C1_verify_certs_ll_chain compatOkRoot (List.replicate 16 0)
      (List.replicate 33 2) (List.replicate 16 1) (List.replicate 64 6)
      [List.replicate 64 5, List.replicate 64 5] factoryRootKey).2
      (by decide) (by decide) (by decide) rfl rfl).2 (by simp [FACTORY_ROOT_KEYS])

/-! ## Claim C3 -/

/-- Claim C3: for every tapsigner status response, `recover_pubkey`
computes the unmasked key as the first byte of the response pubkey
followed by the XOR of the remaining bytes with the session key, builds
the message `'OPENDIME' ++ card_nonce ++ my_nonce ++ [0]`, verifies the
response signature against the unmasked key and the sha256 of that
message, raises the proof-of-possession error when verification fails,
and returns the unmasked key when it succeeds. -/
theorem claim_C3_recover_pubkey (c : Compat) (cn : Bytes) (rr : ReadResp)
    (my_nonce ses_key : Bytes) (msg unmasked : Bytes)
    (hcn : cn.length = CARD_NONCE_SIZE)
    (hmn : my_nonce.length = USER_NONCE_SIZE)
    (hpk : rr.pubkey.length = 33) (hsk : ses_key.length = 32)
    (hmsg : msg = OPENDIME ++ cn ++ my_nonce ++ [0])
    (hum : unmasked = rr.pubkey.take 1 ++
      List.zipWith (· ^^^ ·) (rr.pubkey.drop 1) ses_key) :
    (c.CT_sig_verify unmasked (c.sha256s msg) rr.sig = true →
      recover_pubkey c ⟨true, cn⟩ rr my_nonce ses_key = .ok unmasked) ∧
    (c.CT_sig_verify unmasked (c.sha256s msg) rr.sig = false →
      recover_pubkey c ⟨true, cn⟩ rr my_nonce ses_key =
        .error .badSigRecoverPubkey) := by
  subst hmsg hum
  have hxl : (rr.pubkey.drop 1).length = ses_key.length := by
    simp [hpk, hsk]
  constructor
  · intro hver
    simp only [OPENDIME, List.cons_append, List.nil_append, List.append_assoc,
      List.drop_one] at hver
    simp [recover_pubkey, xor_bytes, hxl, hver, OPENDIME, CARD_NONCE_SIZE,
      USER_NONCE_SIZE, hcn, hmn, hpk, hsk]
  · intro hver
    simp only [OPENDIME, List.cons_append, List.nil_append, List.append_assoc,
      List.drop_one] at hver
    simp [recover_pubkey, xor_bytes, hxl, hver, OPENDIME, CARD_NONCE_SIZE,
      USER_NONCE_SIZE, hcn, hmn, hpk, hsk]

/-- Witness for claim C3 at concrete inputs, exercising the success
branch. -/
theorem claim_C3_witness :
    recover_pubkey compatOkRoot ⟨true, List.replicate 16 0⟩
        ⟨2 :: List.replicate 32 3, List.replicate 64 6⟩ (List.replicate 16 1)
        (List.replicate 32 3) =
      .ok (2 :: List.replicate 32 0) := by
  have h := (claim_C3_recover_pubkey compatOkRoot (List.replicate 16 0)
    ⟨2 :: List.replicate 32 3, List.replicate 64 6⟩ (List.replicate 16 1)
    (List.replicate 32 3)
    (OPENDIME ++ List.replicate 16 0 ++ List.replicate 16 1 ++ [0])
    ((2 :: List.replicate 32 3).take 1 ++
      List.zipWith (· ^^^ ·) ((2 :: List.replicate 32 3).drop 1)
        (List.replicate 32 3))
    (by decide) (by decide) (by decide) (by decide) rfl rfl).1 rfl
  simpa using h

/-! ## Claim C6 -/

/-- XOR-ing a byte string twice with the same equal-length mask is the
identity. -/
theorem zipWith_xor_cancel (a b : Bytes) (h : a.length = b.length) :
    List.zipWith (· ^^^ ·) (List.zipWith (· ^^^ ·) a b) b = a := by
  induction a generalizing b with
  | nil => simp
  | cons x xs ih =>
    cases b with
    | nil => simp at h
    | cons y ys =>
      simp only [List.zipWith_cons_cons]
      rw [Nat.xor_cancel_right, ih ys (by simpa using h)]

/-- Claim C6: `calc_xcvc` rejects verification codes shorter than 6 or
longer than 32 bytes with the invalid-input error; otherwise the mask
is the first `cvc.length` bytes of `session_key XOR
sha256(card_nonce ++ cmd)` and the returned `xcvc` is `cvc XOR mask`,
so XOR-ing the returned `xcvc` with the same mask recovers the original
verification code exactly. -/
theorem claim_C6_calc_xcvc (c : Compat) (kp : Bytes × Bytes)
    (cmd : List Char) (card_nonce his_pubkey : Bytes) (cvc mask : Bytes)
    (hmask : mask = (List.zipWith (· ^^^ ·) (c.CT_ecdh his_pubkey kp.1)
        (c.sha256s (card_nonce ++ cmd.map Char.toNat))).take cvc.length) :
    (cvc.length < 6 ∨ 32 < cvc.length →
      calc_xcvc c kp cmd card_nonce his_pubkey cvc =
        .error .invalidCvcLength) ∧
    (6 ≤ cvc.length → cvc.length ≤ 32 →
      (c.CT_ecdh his_pubkey kp.1).length = 32 →
      (c.sha256s (card_nonce ++ cmd.map Char.toNat)).length = 32 →
      calc_xcvc c kp cmd card_nonce his_pubkey cvc =
          .ok ⟨c.CT_ecdh his_pubkey kp.1,
            ⟨kp.2, List.zipWith (· ^^^ ·) cvc mask⟩⟩ ∧
        List.zipWith (· ^^^ ·) (List.zipWith (· ^^^ ·) cvc mask) mask =
          cvc) := by
  constructor
  · intro h
    rcases h with h | h <;> simp [calc_xcvc, h]
  · intro h6 h32 hsk hmd
    subst hmask
    have hmlen : ((List.zipWith (· ^^^ ·) (c.CT_ecdh his_pubkey kp.1)
        (c.sha256s (card_nonce ++ cmd.map Char.toNat))).take
          cvc.length).length = cvc.length := by
      simp [hsk, hmd]
      omega
    refine ⟨?_, zipWith_xor_cancel _ _ hmlen.symm⟩
    simp [calc_xcvc, xor_bytes, hsk, hmd, hmlen, Nat.not_lt.mpr h6,
      Nat.not_lt.mpr h32]

/-- Witness for claim C6 at concrete inputs: a 6-byte verification code
is masked and the returned `xcvc` equals its XOR with the mask. -/
theorem claim_C6_witness :
    calc_xcvc compatOkRoot (List.replicate 32 9, List.replicate 33 4)
        ['r', 'd'] (List.replicate 16 0) (List.replicate 33 2)
        (List.replicate 6 1) =
      .ok ⟨List.replicate 32 0, ⟨List.replicate 33 4, List.replicate 6 1⟩⟩ := by
  have h := (claim_C6_calc_xcvc compatOkRoot
    (List.replicate 32 9, List.replicate 33 4) ['r', 'd']
    (List.replicate 16 0) (List.replicate 33 2) (List.replicate 6 1) _
    rfl).2 (by decide) (by decide) rfl rfl
  exact h.1.trans (congrArg Except.ok (by decide))

/-! ## Claim C9 -/

/-- A slice of a character list only contains characters of the list. -/
theorem jsSlice_subset (s : List Char) (i j : Nat) : jsSlice s i j ⊆ s :=
  fun _ hx => List.drop_subset i s (List.take_subset (j - i) (s.drop i) hx)

/-- Claim C9: for a 33-byte compressed public key,
`card_pubkey_to_ident` deterministically returns four dash-separated
groups of five characters of the base32 encoding, 23 characters in
total; any input whose length is not 33 bytes raises an error.  `P` is
an arbitrary property of the base32 alphabet characters (instantiated
with the concrete alphabet in the witness). -/
theorem claim_C9_card_pubkey_to_ident (c : Compat) (card_pubkey : Bytes)
    (P : Char → Prop) (md : List Char)
    (hmd : md = c.base32Encode ((c.sha256s card_pubkey).drop 8)) :
    (card_pubkey.length ≠ 33 →
      card_pubkey_to_ident c card_pubkey =
        .error .expectingCompressedPubkey) ∧
    (card_pubkey.length = 33 → 20 ≤ md.length → (∀ ch ∈ md, P ch) →
      card_pubkey_to_ident c card_pubkey =
          .ok (jsSlice md 0 5 ++ '-' :: jsSlice md 5 10 ++ '-' ::
            jsSlice md 10 15 ++ '-' :: jsSlice md 15 20) ∧
        (jsSlice md 0 5).length = 5 ∧ (jsSlice md 5 10).length = 5 ∧
        (jsSlice md 10 15).length = 5 ∧ (jsSlice md 15 20).length = 5 ∧
        (jsSlice md 0 5 ++ '-' :: jsSlice md 5 10 ++ '-' ::
          jsSlice md 10 15 ++ '-' :: jsSlice md 15 20).length = 23 ∧
        (∀ ch ∈ jsSlice md 0 5 ++ '-' :: jsSlice md 5 10 ++ '-' ::
          jsSlice md 10 15 ++ '-' :: jsSlice md 15 20,
          ch = '-' ∨ P ch)) := by
  constructor
  · intro h
    simp [card_pubkey_to_ident, h]
  · intro h33 h20 hP
    have h05 : (jsSlice md 0 5).length = 5 := by
      simp only [jsSlice, List.length_take, List.length_drop]
      omega
    have h510 : (jsSlice md 5 10).length = 5 := by
      simp only [jsSlice, List.length_take, List.length_drop]
      omega
    have h1015 : (jsSlice md 10 15).length = 5 := by
      simp only [jsSlice, List.length_take, List.length_drop]
      omega
    have h1520 : (jsSlice md 15 20).length = 5 := by
      simp only [jsSlice, List.length_take, List.length_drop]
      omega
    refine ⟨?_, h05, h510, h1015, h1520, ?_, ?_⟩
    · rw [card_pubkey_to_ident, if_neg (by simp [h33]), ← hmd]
      simp [List.dropLast_append_of_ne_nil, List.dropLast_cons_of_ne_nil]
    · simp [List.length_append, h05, h510, h1015, h1520]
    · intro ch hch
      rcases List.mem_append.1 hch with h | h
      · rcases List.mem_append.1 h with h | h
        · rcases List.mem_append.1 h with h | h
          · exact Or.inr (hP ch (jsSlice_subset md 0 5 h))
          · rcases List.mem_cons.1 h with h | h
            · exact Or.inl h
            · exact Or.inr (hP ch (jsSlice_subset md 5 10 h))
        · rcases List.mem_cons.1 h with h | h
          · exact Or.inl h
          · exact Or.inr (hP ch (jsSlice_subset md 10 15 h))
      · rcases List.mem_cons.1 h with h | h
        · exact Or.inl h
        · exact Or.inr (hP ch (jsSlice_subset md 15 20 h))

/-- Witness for claim C9 at concrete inputs: a 33-byte key yields a
23-character ident of four dash-separated groups. -/
theorem claim_C9_witness :
    card_pubkey_to_ident compatOkRoot (List.replicate 33 2) =
        .ok (List.replicate 5 'A' ++ '-' :: List.replicate 5 'A' ++ '-' ::
          List.replicate 5 'A' ++ '-' :: List.replicate 5 'A') ∧
      (List.replicate 5 'A' ++ '-' :: List.replicate 5 'A' ++ '-' ::
        List.replicate 5 'A' ++ '-' :: List.replicate 5 'A').length = 23 := by
  have h := (claim_C9_card_pubkey_to_ident compatOkRoot (List.replicate 33 2)
    (fun ch => ch = 'A') (List.replicate 39 'A') rfl).2 (by decide)
    (by decide) (by intro ch hch; exact List.eq_of_mem_replicate hch)
  exact ⟨h.1.trans (congrArg Except.ok (by decide)), by decide⟩

/-! ## Claim C5 -/

/-- A recovery-id candidate is passed over by the `make_recoverable_sig`
loop: its recovery throws (only tolerated for ids `>= 2`), or it yields
a key that fails a supplied constraint (pubkey mismatch, or rendered
address not ending in the expected address). -/
def candidateSkipped (c : Compat) (digest sig : Bytes)
    (addr : Option (List Char)) (ep : Option Bytes) (tn : Bool)
    (rec_id : Nat) : Prop :=
  match c.CT_sig_to_pubkey digest ((39 + rec_id) :: sig) with
  | .error _ => 2 ≤ rec_id
  | .ok pubkey =>
    expectMismatch ep pubkey = true ∨
      (expectMismatch ep pubkey = false ∧
        ∃ a, addr = some a ∧
          jsEndsWith (render_address c pubkey tn) a = false)

/-- When every remaining candidate is passed over, the loop exhausts
and fails with the signature-recovery error. -/
theorem mrsGo_all_skipped (c : Compat) (digest sig : Bytes)
    (addr : Option (List Char)) (ep : Option Bytes) (tn : Bool) :
    ∀ l : List Nat, (∀ i ∈ l, candidateSkipped c digest sig addr ep tn i) →
      mrsGo c digest sig addr ep tn l = .error .sigNotRecovered := by
  intro l
  induction l with
  | nil => intro _; rfl
  | cons i rest ih =>
    intro hall
    have hi := hall i (List.mem_cons_self i rest)
    have hrest := ih fun j hj => hall j (List.mem_cons_of_mem i hj)
    unfold candidateSkipped at hi
    cases hrec : c.CT_sig_to_pubkey digest ((39 + i) :: sig) with
    | error e =>
      rw [hrec] at hi
      simp only [mrsGo, hrec]
      rw [if_pos hi]
      exact hrest
    | ok pk =>
      rw [hrec] at hi
      simp only [mrsGo, hrec]
      rcases hi with hmis | ⟨hnomis, a, ha, hends⟩
      · rw [if_pos hmis]
        exact hrest
      · rw [if_neg (by simp [hnomis])]
        rw [ha] at hrest ⊢
        simp [hends, hrest]

/-- Counterexample to claim C5 as stated: with no address and no
expected-pubkey constraint supplied, a public-key recovery failure at
candidate 0 does not propagate to the caller — the candidate signature
`[39] ++ sig` is returned as a success, even though recovery threw. -/
theorem claim_C5_counterexample :
    compatRecFail.CT_sig_to_pubkey (List.replicate 32 0)
        (39 :: List.replicate 64 0) = .error .cryptoFailure ∧
      make_recoverable_sig compatRecFail (List.replicate 32 0)
          (List.replicate 64 0) none none false =
        .ok (39 :: List.replicate 64 0) := ⟨rfl, rfl⟩

/-- Claim C5 as amended: in `make_recoverable_sig`, a recovery failure
for candidate 2 or 3 is skipped and the loop continues; a recovery
failure for candidate 0 or 1 propagates to the caller (as a type error
on the undefined key) only when an expected address or pubkey is
supplied — with neither supplied, the candidate's recoverable signature
is returned despite the failure; and if none of the four candidates
satisfies all supplied constraints the call fails with the
signature-recovery error. -/
theorem claim_C5_make_recoverable_sig (c : Compat) (digest sig : Bytes)
    (addr : Option (List Char)) (ep : Option Bytes) (tn : Bool) :
    (digest.length = 32 → sig.length = 64 →
      (∀ i ∈ [0, 1, 2, 3], candidateSkipped c digest sig addr ep tn i) →
      make_recoverable_sig c digest sig addr ep tn =
        .error .sigNotRecovered) ∧
    (∀ rest rec_id, 2 ≤ rec_id →
      (∃ e, c.CT_sig_to_pubkey digest ((39 + rec_id) :: sig) = .error e) →
      mrsGo c digest sig addr ep tn (rec_id :: rest) =
        mrsGo c digest sig addr ep tn rest) ∧
    (∀ rest rec_id, rec_id < 2 →
      (∃ e, c.CT_sig_to_pubkey digest ((39 + rec_id) :: sig) = .error e) →
      addr ≠ none ∨ ep ≠ none →
      mrsGo c digest sig addr ep tn (rec_id :: rest) =
        .error .jsTypeError) ∧
    (∀ rest rec_id, rec_id < 2 →
      (∃ e, c.CT_sig_to_pubkey digest ((39 + rec_id) :: sig) = .error e) →
      addr = none → ep = none →
      mrsGo c digest sig addr ep tn (rec_id :: rest) =
        .ok ((39 + rec_id) :: sig)) := by
  refine ⟨?_, ?_, ?_, ?_⟩
  · intro h32 h64 hall
    rw [make_recoverable_sig, if_neg (by simp [h32]), if_neg (by simp [h64])]
    exact mrsGo_all_skipped c digest sig addr ep tn [0, 1, 2, 3] hall
  · intro rest rec_id h2 ⟨e, hrec⟩
    simp only [mrsGo, hrec]
    rw [if_pos h2]
  · intro rest rec_id h2 ⟨e, hrec⟩ hconstraint
    simp only [mrsGo, hrec]
    rw [if_neg (by omega)]
    cases hep : ep with
    | some v => simp
    | none =>
      cases haddr : addr with
      | some a => simp
      | none =>
        exfalso
        rcases hconstraint with h | h
        · exact h haddr
        · exact h hep
  · intro rest rec_id h2 ⟨e, hrec⟩ haddr hep
    subst haddr hep
    simp only [mrsGo, hrec]
    rw [if_neg (by omega)]

/-- Witness for the amended claim C5 at concrete inputs: exhaustion of
all four candidates under a pubkey constraint yields the
signature-recovery error; a throwing candidate 2 is skipped; a throwing
candidate 0 with a constraint fails with the type error; a throwing
candidate 0 with no constraints returns the candidate signature. -/
theorem claim_C5_witness :
    make_recoverable_sig compatBadRoot (List.replicate 32 0)
        (List.replicate 64 0) none (some factoryRootKey) false =
      .error .sigNotRecovered ∧
    mrsGo compatRecFail (List.replicate 32 0) (List.replicate 64 0) none none
        false [2, 3] =
      mrsGo compatRecFail (List.replicate 32 0) (List.replicate 64 0) none
        none false [3] ∧
    mrsGo compatRecFail (List.replicate 32 0) (List.replicate 64 0) none
        (some factoryRootKey) false [0, 1, 2, 3] = .error .jsTypeError ∧
    mrsGo compatRecFail (List.replicate 32 0) (List.replicate 64 0) none none
        false [1, 2, 3] = .ok (40 :: List.replicate 64 0) := by
  refine ⟨?_, ?_, ?_, ?_⟩
  · refine (claim_C5_make_recoverable_sig compatBadRoot (List.replicate 32 0)
      (List.replicate 64 0) none (some factoryRootKey) false).1 (by decide)
      (by decide) ?_
    intro i _
    exact Or.inl (by decide)
  · exact (claim_C5_make_recoverable_sig compatRecFail (List.replicate 32 0)
      (List.replicate 64 0) none none false).2.1 [3] 2 (by decide)
      ⟨.cryptoFailure, rfl⟩
  · exact (claim_C5_make_recoverable_sig compatRecFail (List.replicate 32 0)
      (List.replicate 64 0) none (some factoryRootKey) false).2.2.1 [1, 2, 3]
      0 (by decide) ⟨.cryptoFailure, rfl⟩ (Or.inr (by simp))
  · have h := (claim_C5_make_recoverable_sig compatRecFail
      (List.replicate 32 0) (List.replicate 64 0) none none false).2.2.2
      [2, 3] 1 (by decide) ⟨.cryptoFailure, rfl⟩ rfl rfl
    simpa using h

/-! ## Claim C2 -/

/-- When a character occurs in a string, `indexOf` finds it and the
characters before it are exactly the longest run avoiding it. -/
theorem jsIndexOf_of_mem (ch : Char) (s : List Char) (h : ch ∈ s) :
    ∃ i, jsIndexOf ch s = some i ∧
      s.take i = s.takeWhile (fun x => x != ch) ∧ i ≤ s.length := by
  induction s with
  | nil => simp at h
  | cons a t ih =>
    by_cases ha : a = ch
    · subst ha
      exact ⟨0, by simp [jsIndexOf], by simp, by simp⟩
    · have ht : ch ∈ t := by
        rcases List.mem_cons.1 h with h1 | h1
        · exact absurd h1.symm ha
        · exact h1
      obtain ⟨i, hidx, htake, hle⟩ := ih ht
      refine ⟨i + 1, ?_, ?_, ?_⟩
      · simp [jsIndexOf, ha, hidx]
      · simp [List.take_succ_cons, List.takeWhile_cons, bne_iff_ne, ha, htake]
      · simp [Nat.succ_le_succ hle]

/-- `expect.slice(0, expect.indexOf('_'))` is the text before the first
separator, when a separator is present. -/
theorem sliceToFirstSep_eq_before_first (s : List Char) (h : '_' ∈ s) :
    sliceToFirstSep s = s.takeWhile (fun x => x != '_') := by
  obtain ⟨i, hidx, htake, _⟩ := jsIndexOf_of_mem '_' s h
  rw [sliceToFirstSep, hidx]
  exact htake

/-- `expect.slice(expect.lastIndexOf('_') + 1)` is the text after the
last separator, when a separator is present. -/
theorem sliceFromLastSep_eq_after_last (s : List Char) (h : '_' ∈ s) :
    sliceFromLastSep s = (s.reverse.takeWhile (fun x => x != '_')).reverse := by
  have hrev : '_' ∈ s.reverse := List.mem_reverse.2 h
  obtain ⟨j, hidx, htake, hle⟩ := jsIndexOf_of_mem '_' s.reverse hrev
  rw [sliceFromLastSep, hidx, ← htake]
  show s.drop (s.length - j) = (s.reverse.take j).reverse
  rw [show s.drop (s.length - j) = List.rtake s j from rfl,
    List.rtake_eq_reverse_take_reverse]

/-- Claim C2: for every non-tapsigner status response, read response
and host nonce on which the card's signature verifies, and whose
expected address carries a separator, `recover_address` succeeds
exactly when the rendered address starts with the expected address's
text before the first separator, ends with its text after the last
separator, and both of those lengths individually equal the fixed trim
policy constant `ADDR_TRIM`; any mismatch raises the
counterfeit-device error (`'Corrupt response'`). -/
theorem claim_C2_recover_address_trim (c : Compat) (cn : Bytes)
    (slots : List Nat) (expect : List Char) (rr : ReadResp)
    (my_nonce : Bytes) (left right addr : List Char)
    (hcn : cn.length = CARD_NONCE_SIZE)
    (hmn : my_nonce.length = USER_NONCE_SIZE)
    (hsep : '_' ∈ expect)
    (hleft : left = expect.takeWhile (fun x => x != '_'))
    (hright : right = (expect.reverse.takeWhile (fun x => x != '_')).reverse)
    (haddr : addr = render_address c rr.pubkey false)
    (hsig : c.CT_sig_verify rr.sig
        (c.sha256s (OPENDIME ++ cn ++ my_nonce ++ [slots.headD 0 % 256]))
        rr.pubkey = true) :
    (recover_address c ⟨false, cn, slots, expect⟩ rr my_nonce =
        .ok ⟨rr.pubkey, addr⟩ ↔
      (jsStartsWith addr left = true ∧ jsEndsWith addr right = true ∧
        left.length = ADDR_TRIM ∧ right.length = ADDR_TRIM)) ∧
    (¬ (jsStartsWith addr left = true ∧ jsEndsWith addr right = true ∧
        left.length = ADDR_TRIM ∧ right.length = ADDR_TRIM) →
      recover_address c ⟨false, cn, slots, expect⟩ rr my_nonce =
        .error .corruptResponse) := by
  have hL : sliceToFirstSep expect = left := by
    rw [hleft]
    exact sliceToFirstSep_eq_before_first expect hsep
  have hR : sliceFromLastSep expect = right := by
    rw [hright]
    exact sliceFromLastSep_eq_after_last expect hsep
  have hlen4 : (OPENDIME ++ cn ++ my_nonce ++ [slots.headD 0 % 256]).length =
      8 + CARD_NONCE_SIZE + USER_NONCE_SIZE + 1 := by
    simp only [OPENDIME, List.length_append, List.length_cons,
      List.length_nil, CARD_NONCE_SIZE, USER_NONCE_SIZE, hcn, hmn]
  have hsigneg : ¬ ((! c.CT_sig_verify rr.sig
      (c.sha256s (OPENDIME ++ cn ++ my_nonce ++ [slots.headD 0 % 256]))
      rr.pubkey) = true) := by
    rw [hsig]
    simp
  have hred : recover_address c ⟨false, cn, slots, expect⟩ rr my_nonce =
      (if ! (jsStartsWith addr left && jsEndsWith addr right &&
          left.length == right.length && left.length == ADDR_TRIM) then
        .error .corruptResponse
      else .ok ⟨rr.pubkey, addr⟩) := by
    simp only [recover_address, hL, hR, ← haddr]
    rw [if_neg (by simp), if_neg (not_ne_iff.mpr hlen4), if_neg hsigneg]
  by_cases hcond : (jsStartsWith addr left && jsEndsWith addr right &&
      left.length == right.length && left.length == ADDR_TRIM) = true
  · have hprops : jsStartsWith addr left = true ∧ jsEndsWith addr right = true ∧
        left.length = ADDR_TRIM ∧ right.length = ADDR_TRIM := by
      simp only [Bool.and_eq_true, beq_iff_eq] at hcond
      refine ⟨hcond.1.1.1, hcond.1.1.2, hcond.2, ?_⟩
      omega
    constructor
    · rw [hred, if_neg (by simp [hcond])]
      exact iff_of_true rfl hprops
    · intro hnot
      exact absurd hprops hnot
  · constructor
    · rw [hred, if_pos (by simp only [Bool.not_eq_true] at hcond; simp [hcond])]
      refine iff_of_false (by simp) ?_
      intro hc
      apply hcond
      simp only [Bool.and_eq_true, beq_iff_eq]
      refine ⟨⟨⟨hc.1, hc.2.1⟩, ?_⟩, ?_⟩ <;> omega
    · intro _
      rw [hred, if_pos (by simp only [Bool.not_eq_true] at hcond; simp [hcond])]

/-- Witness for claim C2 at concrete inputs: an expected address whose
12-character prefix and suffix around the separators match the rendered
address makes `recover_address` succeed. -/
theorem claim_C2_witness :
    recover_address compatOkRoot ⟨false, List.replicate 16 0, [0],
        List.replicate 12 'q' ++ '_' :: List.replicate 12 'q'⟩
      ⟨List.replicate 33 2, List.replicate 64 6⟩ (List.replicate 16 1) =
      .ok ⟨List.replicate 33 2, List.replicate 24 'q'⟩ := by
  exact (claim_C2_recover_address_trim compatOkRoot (List.replicate 16 0)
    [0] (List.replicate 12 'q' ++ '_' :: List.replicate 12 'q')
    ⟨List.replicate 33 2, List.replicate 64 6⟩ (List.replicate 16 1)
    (List.replicate 12 'q') (List.replicate 12 'q') (List.replicate 24 'q')
    (by decide) (by decide) (by decide) (by decide) (by decide) (by decide)
    rfl).1.mpr ⟨by decide, by decide, by decide, by decide⟩

/-! ## Claim C8: decimal print/parse round trip -/

/-- The decimal digit characters decode back to their values. -/
theorem digitVal_digitChar (d : Nat) (h : d < 10) :
    digitVal (Nat.digitChar d) = some d := by
  interval_cases d <;> decide

/-- A decimal digit character has code `48 + d`. -/
theorem digitChar_toNat (d : Nat) (h : d < 10) :
    (Nat.digitChar d).toNat = 48 + d := by
  interval_cases d <;> decide

/-- A character with a decimal digit value has code between 48 and 57. -/
theorem digitVal_isSome_toNat {ch : Char} (h : (digitVal ch).isSome) :
    48 ≤ ch.toNat ∧ ch.toNat ≤ 57 := by
  by_cases hc : 48 ≤ ch.toNat ∧ ch.toNat ≤ 57
  · exact hc
  · rw [digitVal, if_neg hc] at h
    simp at h

/-- Digit characters are not whitespace. -/
theorem jsWhitespace_of_digit {ch : Char} (h : (digitVal ch).isSome) :
    jsWhitespace ch = false := by
  obtain ⟨h1, h2⟩ := digitVal_isSome_toNat h
  simp [jsWhitespace]
  omega

/-- A digit character differs from any character with a code outside
the digit range. -/
theorem digit_ne_char {ch : Char} (h : (digitVal ch).isSome) (c : Char)
    (hc : c.toNat < 48 ∨ 57 < c.toNat) : (ch == c) = false := by
  obtain ⟨h1, h2⟩ := digitVal_isSome_toNat h
  have hne : ch ≠ c := by
    intro he
    subst he
    omega
  simp [hne]

/-- Digit characters are not hardening markers. -/
theorem marker_not_digit {ch : Char} (h : (digitVal ch).isSome) :
    isHardeningMarker ch = false := by
  obtain ⟨h1, h2⟩ := digitVal_isSome_toNat h
  apply decide_eq_false
  intro hm
  fin_cases hm <;> revert h1 h2 <;> decide

/-- Decimal renderings are never empty. -/
theorem natToChars_ne_nil (n : Nat) : natToChars n ≠ [] := by
  by_cases h : n = 0
  · simp [natToChars, h]
  · simp [natToChars, h, Nat.digits_ne_nil_iff_ne_zero]

/-- Every character of a decimal rendering is a digit. -/
theorem natToChars_all_digits (n : Nat) (ch : Char)
    (h : ch ∈ natToChars n) : (digitVal ch).isSome := by
  unfold natToChars at h
  by_cases h0 : n = 0
  · rw [if_pos h0] at h
    simp at h
    subst h
    decide
  · rw [if_neg h0] at h
    simp only [List.mem_reverse, List.mem_map] at h
    obtain ⟨d, hd, rfl⟩ := h
    rw [digitVal_digitChar d (Nat.digits_lt_base (by norm_num) hd)]
    rfl

/-- Value of a big-endian digit run under the accumulator parser. -/
theorem parseDigitsAcc_digitChar (L : List Nat) :
    ∀ acc, (∀ d ∈ L, d < 10) →
      parseDigitsAcc 10 digitVal acc (L.map Nat.digitChar) =
        acc * 10 ^ L.length + Nat.ofDigits 10 L.reverse := by
  induction L with
  | nil =>
    intro acc _
    simp [parseDigitsAcc, Nat.ofDigits]
  | cons d t ih =>
    intro acc hall
    have hd : d < 10 := hall d (List.mem_cons_self d t)
    rw [List.map_cons]
    simp only [parseDigitsAcc, digitVal_digitChar d hd]
    rw [ih (acc * 10 + d) (fun x hx => hall x (List.mem_cons_of_mem d hx)),
      List.reverse_cons, Nat.ofDigits_append]
    simp [Nat.ofDigits]
    ring

/-- The decimal rendering of a natural number parses back to it. -/
theorem jsParseInt_natToChars (n : Nat) :
    jsParseInt (natToChars n) = some (n : Int) := by
  by_cases h0 : n = 0
  · subst h0
    decide
  · have hL : natToChars n = ((Nat.digits 10 n).reverse).map Nat.digitChar := by
      unfold natToChars
      rw [if_neg h0, List.map_reverse]
    have hdigitsne : Nat.digits 10 n ≠ [] := Nat.digits_ne_nil_iff_ne_zero.2 h0
    obtain ⟨d, t, hdt⟩ : ∃ d t, (Nat.digits 10 n).reverse = d :: t := by
      cases hrev : (Nat.digits 10 n).reverse with
      | nil => exact absurd (by simpa using hrev) hdigitsne
      | cons d t => exact ⟨d, t, rfl⟩
    have hall : ∀ x ∈ d :: t, x < 10 := by
      intro x hx
      rw [← hdt] at hx
      exact Nat.digits_lt_base (by norm_num) (List.mem_reverse.1 hx)
    have hd10 : d < 10 := hall d (List.mem_cons_self d t)
    have hdne : d ≠ 0 := by
      have h1 : (Nat.digits 10 n).getLast? = some d := by
        rw [← List.head?_reverse, hdt]
        rfl
      rw [List.getLast?_eq_getLast _ hdigitsne] at h1
      intro he
      exact Nat.getLast_digit_ne_zero 10 h0 (by
        have := Option.some.inj h1
        rw [this, he])
    have hds : (digitVal (Nat.digitChar d)).isSome := by
      rw [digitVal_digitChar d hd10]
      rfl
    rw [hL, hdt, List.map_cons, jsParseInt]
    rw [List.dropWhile_cons]
    rw [jsWhitespace_of_digit hds]
    simp only [Bool.false_eq_true, if_false]
    rw [digit_ne_char hds '-' (by decide), digit_ne_char hds '+' (by decide)]
    simp only [Bool.false_eq_true, if_false]
    have hdec : jsParseIntDec 1 (Nat.digitChar d :: t.map Nat.digitChar) =
        some (n : Int) := by
      rw [jsParseIntDec]
      simp only [digitVal_digitChar d hd10]
      rw [show Nat.digitChar d :: t.map Nat.digitChar =
        (d :: t).map Nat.digitChar from rfl]
      rw [parseDigitsAcc_digitChar (d :: t) 0 hall, ← hdt]
      simp [Nat.ofDigits_digits]
    cases t with
    | nil =>
      simp only [List.map_nil] at hdec ⊢
      rw [jsParseIntSigned]
      simpa [hasHexMarker] using hdec
    | cons c1 t' =>
      have hbeq : ((Nat.digitChar d).toNat == 48) = false := by
        rw [digitChar_toNat d hd10]
        simp
        omega
      simp only [List.map_cons] at hdec ⊢
      rw [jsParseIntSigned]
      rw [show hasHexMarker (Nat.digitChar d :: Nat.digitChar c1 ::
        List.map Nat.digitChar t') = false from by
          simp [hasHexMarker, hbeq]]
      simp only [Bool.false_eq_true, if_false]
      exact hdec

/-- The vacuous range guard accepts every component (see claim C7). -/
theorem path_component_in_range_true (num : JsNum) :
    path_component_in_range num = true := by
  unfold path_component_in_range
  cases h : jsLeNum 0 num <;> simp [h] <;> decide

/-- `split` never returns an empty list of chunks. -/
theorem splitOnChar_ne_nil (sep : Char) (l : List Char) :
    splitOnChar sep l ≠ [] := by
  cases l with
  | nil => simp [splitOnChar]
  | cons a t =>
    rw [splitOnChar]
    cases splitOnChar sep t with
    | nil => simp
    | cons y ys => by_cases ha : a = sep <;> simp [ha]

/-- A chunk without the separator splits into itself. -/
theorem splitOnChar_of_not_mem (sep : Char) (l : List Char) (h : sep ∉ l) :
    splitOnChar sep l = [l] := by
  induction l with
  | nil => rfl
  | cons a t ih =>
    have ha : a ≠ sep := fun he => h (he ▸ List.mem_cons_self a t)
    have ht : sep ∉ t := fun hm => h (List.mem_cons_of_mem a hm)
    rw [splitOnChar, ih ht]
    simp [ha]

/-- Splitting after a separator-free chunk peels it off. -/
theorem splitOnChar_append_cons (sep : Char) (xs ys : List Char)
    (h : sep ∉ xs) :
    splitOnChar sep (xs ++ sep :: ys) = xs :: splitOnChar sep ys := by
  induction xs with
  | nil =>
    simp only [List.nil_append]
    rw [splitOnChar]
    cases hs : splitOnChar sep ys with
    | nil => exact absurd hs (splitOnChar_ne_nil sep ys)
    | cons y ys' => simp
  | cons a t ih =>
    have ha : a ≠ sep := fun he => h (he ▸ List.mem_cons_self a t)
    have ht : sep ∉ t := fun hm => h (List.mem_cons_of_mem a hm)
    simp only [List.cons_append]
    rw [splitOnChar, ih ht]
    simp [ha]

/-- Splitting inverts joining for separator-free chunks. -/
theorem splitOnChar_joinChar (sep : Char) :
    ∀ pieces : List (List Char), pieces ≠ [] →
      (∀ piece ∈ pieces, sep ∉ piece) →
      splitOnChar sep (joinChar sep pieces) = pieces := by
  intro pieces
  induction pieces with
  | nil =>
    intro hne _
    exact absurd rfl hne
  | cons x rest ih =>
    intro _ h
    cases rest with
    | nil =>
      rw [joinChar]
      exact splitOnChar_of_not_mem sep x (h x (List.mem_cons_self x []))
    | cons y rest' =>
      rw [joinChar, splitOnChar_append_cons sep x _
        (h x (List.mem_cons_self x (y :: rest')))]
      rw [ih (by simp) (fun piece hp => h piece (List.mem_cons_of_mem x hp))]

/-- Characters of a rendered path component are digits or `'h'`. -/
theorem path2strComponent_chars (v : Int) (ch : Char)
    (h : ch ∈ path2strComponent v) : (digitVal ch).isSome ∨ ch = 'h' := by
  unfold path2strComponent at h
  rcases List.mem_append.1 h with h | h
  · exact Or.inl (natToChars_all_digits _ _ h)
  · split at h
    · exact Or.inr (by simpa using h)
    · simp at h

/-- The 32-bit pattern of an in-range value is the value itself. -/
theorem toUint32_of_lt {v : Int} (h0 : 0 ≤ v) (h32 : v < 2 ^ 32) :
    toUint32 (some v) = v.toNat := by
  show (v % (2 ^ 32 : Int)).toNat = v.toNat
  rw [Int.emod_eq_of_lt h0 h32]

/-- Parsing one rendered component, for any 32-bit entry value: the
component-level round trip. -/
theorem str2pathGo_component (v : Int) (h0 : 0 ≤ v) (h32 : v < 2 ^ 32)
    (rest : List (List Char)) :
    str2pathGo (path2strComponent v :: rest) =
      match str2pathGo rest with
      | .error e => .error e
      | .ok rv => .ok (some v :: rv) := by
  have hH : HARDENED = 2147483648 := by norm_num [HARDENED]
  have hvn : v.toNat < 2 ^ 32 := by omega
  have hcomp : path2strComponent v =
      natToChars (v.toNat % HARDENED) ++
        (if HARDENED ≤ v.toNat then ['h'] else []) := by
    unfold path2strComponent
    rw [toUint32_of_lt h0 h32]
  by_cases hbig : HARDENED ≤ v.toNat
  · rw [hcomp, if_pos hbig]
    have hdsne : natToChars (v.toNat % HARDENED) ≠ [] := natToChars_ne_nil _
    have hlen2 : 2 ≤ (natToChars (v.toNat % HARDENED) ++ ['h']).length := by
      rcases hds : natToChars (v.toNat % HARDENED) with _ | ⟨c, t⟩
      · exact absurd hds hdsne
      · simp
    have hnm : natToChars (v.toNat % HARDENED) ++ ['h'] ≠ ['m'] := by
      intro he
      rw [he] at hlen2
      simp at hlen2
    have hnn : natToChars (v.toNat % HARDENED) ++ ['h'] ≠ [] := by
      intro he
      rw [he] at hlen2
      simp at hlen2
    have hlast : (natToChars (v.toNat % HARDENED) ++ ['h']).getLastD ' ' =
        'h' := by
      simp [List.getLastD_eq_getLast?, List.getLast?_concat]
    have horh : orHardened (some ((v.toNat % HARDENED : Nat) : Int)) = v := by
      unfold orHardened
      rw [toUint32_of_lt (by positivity) (by
        rw [hH]
        push_cast
        omega)]
      rw [Int.toNat_ofNat]
      have harith : (v.toNat % HARDENED) % HARDENED + HARDENED = v.toNat := by
        rw [hH] at *
        omega
      rw [harith]
      exact Int.toNat_of_nonneg h0
    rw [str2pathGo, if_neg hnm, if_neg hnn, hlast]
    rw [show isHardeningMarker 'h' = true from rfl]
    simp only [if_true, List.dropLast_concat]
    rw [if_neg (by omega), jsParseInt_natToChars]
    simp only [path_component_in_range_true, Bool.not_true,
      Bool.false_eq_true, if_false]
    rw [horh]
  · rw [hcomp, if_neg hbig, List.append_nil]
    have hsmall : v.toNat % HARDENED = v.toNat :=
      Nat.mod_eq_of_lt (Nat.lt_of_not_le hbig)
    rw [hsmall]
    have hne : natToChars v.toNat ≠ [] := natToChars_ne_nil _
    have hnm : natToChars v.toNat ≠ ['m'] := by
      intro he
      have hm : 'm' ∈ natToChars v.toNat := by
        rw [he]
        exact List.mem_cons_self _ _
      have := natToChars_all_digits _ _ hm
      exact absurd this (by decide)
    have hmem : (natToChars v.toNat).getLastD ' ' ∈ natToChars v.toNat := by
      rw [List.getLastD_eq_getLast?, List.getLast?_eq_getLast _ hne,
        Option.getD_some]
      exact List.getLast_mem hne
    have hmarker :
        isHardeningMarker ((natToChars v.toNat).getLastD ' ') = false :=
      marker_not_digit (natToChars_all_digits _ _ hmem)
    rw [str2pathGo, if_neg hnm, if_neg hne, hmarker]
    simp only [Bool.false_eq_true, if_false]
    rw [jsParseInt_natToChars]
    simp only [path_component_in_range_true, Bool.not_true,
      Bool.false_eq_true, if_false]
    rw [Int.toNat_of_nonneg h0]

/-- Parsing the rendered components of a whole path. -/
theorem str2pathGo_components (p : List Int)
    (h : ∀ v ∈ p, 0 ≤ v ∧ v < 2 ^ 32) :
    str2pathGo (p.map path2strComponent) = .ok (p.map some) := by
  induction p with
  | nil => rfl
  | cons v t ih =>
    have hv := h v (List.mem_cons_self v t)
    rw [List.map_cons, str2pathGo_component v hv.1 hv.2]
    simp only [ih fun w hw => h w (List.mem_cons_of_mem v hw), List.map_cons]

/-- Claim C8: for every well-formed derivation path (each entry a
32-bit value: an index in `[0, 2^31)` optionally carrying the hardened
flag), `str2path (path2str p) = p`. -/
theorem claim_C8_roundtrip (p : List Int)
    (h : ∀ v ∈ p, 0 ≤ v ∧ v < 2 ^ 32) :
    str2path (path2str p) = .ok (p.map some) := by
  have hnosep : ∀ piece ∈ ['m'] :: p.map path2strComponent, '/' ∉ piece := by
    intro piece hp hsl
    rcases List.mem_cons.1 hp with hp | hp
    · subst hp
      simp at hsl
    · obtain ⟨v, _, rfl⟩ := List.mem_map.1 hp
      rcases path2strComponent_chars v '/' hsl with hd | hd
      · exact absurd hd (by decide)
      · exact absurd hd (by decide)
  rw [str2path, path2str,
    splitOnChar_joinChar '/' (['m'] :: p.map path2strComponent) (by simp)
      hnosep]
  rw [show str2pathGo (['m'] :: p.map path2strComponent) =
    str2pathGo (p.map path2strComponent) from by rw [str2pathGo, if_pos rfl]]
  exact str2pathGo_components p h

/-- Witness for claim C8 at a concrete path: index 0 plain and index 0
hardened round-trip through `'m/0/0h'`. -/
theorem claim_C8_witness :
    str2path (path2str [0, 2147483648]) =
      .ok ([0, 2147483648].map some) := by
  exact claim_C8_roundtrip [0, 2147483648] (by decide)

end CCTap
